import Mathlib

/-
Verification of the QGB attestation nonce log
(x/qgb/keeper/keeper_attestation.go).

The keeper is a thin layer over a transactional byte-keyed KV store.  We
embed the store as a function from an inductive key space to optional byte
strings (bytes are modelled as `List Nat`), and each keeper operation as a
Lean function on that store.  A Go `panic` aborts the enclosing state
transition; we model it with `Except Store Store`, where `.error σ` records
the transient store contents at the moment the panic is raised (no keeper
primitive mutates the store after its own panic check, so `σ` is exactly
the state visible at the panic point), and `.ok σ` is the committed result.
-/

namespace QGB

/-- Modelled from the spec: the tagged `AttestationRequestI` variants (§3).
The concrete Go payload types live outside the excerpted source; the spec
requires at least a validator-set update (validator powers and a height)
and a data commitment (a root and a block-height range), each carrying its
nonce. -/
inductive AttestationRequest where
  | valsetUpdate (nonce : Nat) (powers : List Nat) (height : Nat)
  | dataCommitment (nonce : Nat) (root : List Nat) (beginBlock endBlock : Nat)
  deriving DecidableEq, Repr

/-- The `GetNonce` accessor of `AttestationRequestI`. -/
def AttestationRequest.getNonce : AttestationRequest → Nat
  | .valsetUpdate n _ _ => n
  | .dataCommitment n _ _ _ => n

/-- Modelled from the spec: the key layout of the shared KV store (§4 "key
derivation", §6 "persisted layout").  The Go code derives byte-string keys
via `types.GetAttestationKey` and three fixed counter keys
(`types.LatestAttestationtNonce`, `types.LastPrunedAttestationNonce`,
`types.LastUnbondingNonce`), which the spec requires to occupy disjoint,
collision-free ranges; we model them as distinct constructors. -/
inductive StoreKey where
  | attestation (nonce : Nat)
  | latestAttestationNonce
  | lastPrunedAttestationNonce
  | lastUnbondingNonce
  deriving DecidableEq, Repr

/-- The transactional KV store: byte-string values under the keeper keys. -/
def Store := StoreKey → Option (List Nat)

/-- A store holding nothing: the freshly initialized log. -/
def Store.empty : Store := fun _ => none

/-- `store.Get(key)`; `none` is the Go nil byte slice. -/
def Store.get (s : Store) (k : StoreKey) : Option (List Nat) := s k

/-- `store.Has(key)`. -/
def Store.has (s : Store) (k : StoreKey) : Bool := (s k).isSome

/-- `store.Set(key, value)`. -/
def Store.set (s : Store) (k : StoreKey) (v : List Nat) : Store :=
  fun q => if q = k then some v else s q

/-- `store.Delete(key)`. -/
def Store.del (s : Store) (k : StoreKey) : Store :=
  fun q => if q = k then none else s q

/-- Modelled from the spec: `types.UInt64Bytes` (big-endian encoding of a
uint64, outside the excerpted source) — an injective encoding of the
counter value into the stored byte string. -/
def uInt64Bytes (n : Nat) : List Nat := [n]

/-- Modelled from the spec: `UInt64FromBytes`, the inverse decoding used by
the counter getters. -/
def uInt64FromBytes (b : List Nat) : Nat := b.headD 0

/-- Modelled from the spec: `cdc.MarshalInterface` for the two attestation
variants (§6 serialization interface) — a tag byte followed by the fields,
with the variable-length field length-prefixed. -/
def encodeAttestation : AttestationRequest → List Nat
  | .valsetUpdate n powers h => 0 :: n :: h :: powers.length :: powers
  | .dataCommitment n root b e => 1 :: n :: b :: e :: root.length :: root

/-- Modelled from the spec: `cdc.UnmarshalInterface`; returns `none` on an
unrecognized tag or a corrupt payload instead of crashing (§6). -/
def decodeAttestation : List Nat → Option AttestationRequest
  | 0 :: n :: h :: len :: rest =>
      if rest.length = len then some (.valsetUpdate n rest h) else none
  | 1 :: n :: b :: e :: len :: rest =>
      if rest.length = len then some (.dataCommitment n rest b e) else none
  | _ => none

/-- The Go error value `types.ErrUnmarshalllAttestation` returned by
`GetAttestationByNonce` on a decode failure. -/
inductive QGBError where
  | errUnmarshallAttestation
  deriving DecidableEq, Repr

/-- `CheckLatestAttestationNonce`: true iff the latest-nonce key is in the
store. -/
def checkLatestAttestationNonce (s : Store) : Bool :=
  s.has .latestAttestationNonce

/-- `GetLatestAttestationNonce`: reads the latest-nonce key; the Go
function panics on a nil value, modelled as `none`. -/
def getLatestAttestationNonce (s : Store) : Option Nat :=
  (s.get .latestAttestationNonce).map uInt64FromBytes

/-- `CheckLastPrunedAttestationNonce`.  NOTE: faithful to the source, which
reads the `LatestAttestationtNonce` key here (keeper_attestation.go:85),
not the `LastPrunedAttestationNonce` key its doc comment describes. -/
def checkLastPrunedAttestationNonce (s : Store) : Bool :=
  s.has .latestAttestationNonce

/-- `GetLastPrunedAttestationNonce`: reads the last-pruned-nonce key; the
Go function panics on a nil value, modelled as `none`. -/
def getLastPrunedAttestationNonce (s : Store) : Option Nat :=
  (s.get .lastPrunedAttestationNonce).map uInt64FromBytes

/-- `SetLastPrunedAttestationNonce`: unconditional write of the counter. -/
def setLastPrunedAttestationNonce (s : Store) (nonce : Nat) : Store :=
  s.set .lastPrunedAttestationNonce (uInt64Bytes nonce)

/-- `CheckLastUnbondingNonce`. -/
def checkLastUnbondingNonce (s : Store) : Bool :=
  s.has .lastUnbondingNonce

/-- `GetLastUnbondingNonce`; panic on nil modelled as `none`. -/
def getLastUnbondingNonce (s : Store) : Option Nat :=
  (s.get .lastUnbondingNonce).map uInt64FromBytes

/-- `SetLastUnbondingNonce`: unconditional write of the counter. -/
def setLastUnbondingNonce (s : Store) (nonce : Nat) : Store :=
  s.set .lastUnbondingNonce (uInt64Bytes nonce)

/-- `StoreAttestation`: panics (".error s", the pre-state) when the key for
the nonce of the request already holds a value, otherwise marshals the request
and stores it.  The marshal step is total in the model, so the Go marshal
panic branch is unreachable here. -/
def storeAttestation (s : Store) (a : AttestationRequest) : Except Store Store :=
  let key := StoreKey.attestation a.getNonce
  if s.has key then .error s
  else .ok (s.set key (encodeAttestation a))

/-- `SetLatestAttestationNonce`: if the latest-nonce key already exists
(`CheckLatestAttestationNonce`, i.e. the match is `some`) and the stored
value plus one differs from `nonce`, it panics; otherwise it writes
`nonce`.  Nonces are Go uint64 values; the wrap at 2^64, reachable only
after 2^64 appends, is not modelled. -/
def setLatestAttestationNonce (s : Store) (nonce : Nat) : Except Store Store :=
  match s.get .latestAttestationNonce with
  | some b =>
      if uInt64FromBytes b + 1 ≠ nonce then .error s
      else .ok (s.set .latestAttestationNonce (uInt64Bytes nonce))
  | none => .ok (s.set .latestAttestationNonce (uInt64Bytes nonce))

/-- `SetAttestationRequest`, panic-trace semantics: `StoreAttestation`
followed by `SetLatestAttestationNonce`; a panic in either propagates with
the transient store at the panic point.  Event emission is external
plumbing and out of scope. -/
def setAttestationRequestT (s : Store) (a : AttestationRequest) : Except Store Store :=
  match storeAttestation s a with
  | .error σ => .error σ
  | .ok s1 =>
      match setLatestAttestationNonce s1 a.getNonce with
      | .error σ => .error σ
      | .ok s2 => .ok s2

/-- `SetAttestationRequest` with its Go return value: the function body
ends in `return nil`, so the committed result always carries a nil error. -/
def setAttestationRequest (s : Store) (a : AttestationRequest) :
    Except Store (Store × Option QGBError) :=
  match setAttestationRequestT s a with
  | .error σ => .error σ
  | .ok t => .ok (t, none)

/-- `GetAttestationByNonce`: mirrors the Go triple
`(types.AttestationRequestI, bool, error)`. -/
def getAttestationByNonce (s : Store) (nonce : Nat) :
    Option AttestationRequest × Bool × Option QGBError :=
  match s.get (.attestation nonce) with
  | none => (none, false, none)
  | some bz =>
      match decodeAttestation bz with
      | none => (none, false, some .errUnmarshallAttestation)
      | some a => (some a, true, none)

/-- `DeleteAttestation`: early return when the key is absent, otherwise
delete it. -/
def deleteAttestation (s : Store) (nonce : Nat) : Store :=
  let key := StoreKey.attestation nonce
  if s.has key then s.del key else s

/-- Modelled from the spec: the query-surface pairing of a Check call with
the corresponding panicking Get (§4 two-call protocol).  `none` is the
panic of the Get; `some (v, found)` is the `(uint64, found)` result. -/
def getLatestNonceQuery (s : Store) : Option (Nat × Bool) :=
  if checkLatestAttestationNonce s then
    (getLatestAttestationNonce s).map (fun n => (n, true))
  else some (0, false)

/-- Modelled from the spec: the `GetLastPrunedNonce` query-surface pairing
of `CheckLastPrunedAttestationNonce` with `GetLastPrunedAttestationNonce`. -/
def getLastPrunedNonceQuery (s : Store) : Option (Nat × Bool) :=
  if checkLastPrunedAttestationNonce s then
    (getLastPrunedAttestationNonce s).map (fun n => (n, true))
  else some (0, false)

/-- Modelled from the spec: the bulk-pruning composition (§4) — call
`DeleteAttestation` for every nonce in `[LastPrunedNonce+1, k]` (an absent
boundary reads as 0, so the range starts at 1), then advance the
boundary with `SetLastPrunedAttestationNonce`.  `deleteFrom s lo cnt`
deletes the `cnt` consecutive nonces starting at `lo`. -/
def deleteFrom (s : Store) (lo : Nat) : Nat → Store
  | 0 => s
  | cnt + 1 => deleteFrom (deleteAttestation s lo) (lo + 1) cnt

/-- Modelled from the spec: `PruneUpTo(k)`, the composition described in
§4: delete `[LastPrunedNonce+1, k]`, then set the boundary to `k`. -/
def pruneUpTo (s : Store) (k : Nat) : Store :=
  let lp := (getLastPrunedAttestationNonce s).getD 0
  setLastPrunedAttestationNonce (deleteFrom s (lp + 1) (k - lp)) k

/-- The good-state invariant of the log (spec I1/I4 bookkeeping): the latest
counter holds `lat`, the pruning boundary holds `bo` (absent before any
prune), the attestation entries are exactly the nonces in
`[bo.getD 0 + 1, lat]`, and the boundary never exceeds the latest nonce. -/
structure GoodLog (s : Store) (bo : Option Nat) (lat : Nat) : Prop where
  latest : s.get .latestAttestationNonce = some (uInt64Bytes lat)
  pruned : s.get .lastPrunedAttestationNonce = bo.map uInt64Bytes
  entries : ∀ n, ((s.get (.attestation n)).isSome = true ↔
    bo.getD 0 + 1 ≤ n ∧ n ≤ lat)
  hle : bo.getD 0 ≤ lat

/-- Validity precondition of the pruning composition, enforced by the
caller per the spec (§4, I4): the latest counter exists, the target does
not regress the boundary, and the newest attestation survives. -/
def PruneValid (s : Store) (k : Nat) : Prop :=
  ∃ lat, getLatestAttestationNonce s = some lat ∧
    (getLastPrunedAttestationNonce s).getD 0 ≤ k ∧ k < lat

/-- The mutating operations of the log as a small command language:
appends, and the well-formed pruning composition of the spec. -/
inductive LogOp where
  | append (a : AttestationRequest)
  | prune (k : Nat)

/-- Big-step execution of a list of log operations in which no operation
panics and every prune satisfies the caller-side precondition. -/
inductive ExecOk : Store → List LogOp → Store → Prop where
  | nil (s : Store) : ExecOk s [] s
  | append {s t u : Store} {a : AttestationRequest} {ops : List LogOp} :
      setAttestationRequestT s a = .ok t → ExecOk t ops u →
      ExecOk s (.append a :: ops) u
  | prune {s u : Store} {k : Nat} {ops : List LogOp} :
      PruneValid s k → ExecOk (pruneUpTo s k) ops u →
      ExecOk s (.prune k :: ops) u

/-- A concrete validator-set update request with nonce 1. -/
def att1 : AttestationRequest := .valsetUpdate 1 [10, 20] 5

/-- A concrete data-commitment request with nonce 2. -/
def att2 : AttestationRequest := .dataCommitment 2 [7] 1 10

/-- A concrete validator-set update request with nonce 3. -/
def att3 : AttestationRequest := .valsetUpdate 3 [1] 6

/-- A second request carrying the already-used nonce 1. -/
def att1b : AttestationRequest := .dataCommitment 1 [9] 0 3

/-- The store after appending `att1` to the empty store. -/
def s1 : Store :=
  (Store.empty.set (.attestation 1) (encodeAttestation att1)).set
    .latestAttestationNonce (uInt64Bytes 1)

/-- The store after appending `att1` then `att2` to the empty store. -/
def s2 : Store :=
  (s1.set (.attestation 2) (encodeAttestation att2)).set
    .latestAttestationNonce (uInt64Bytes 2)

/-- A store in which the entry for nonce 7 holds bytes that do not decode
to any attestation variant. -/
def sBad : Store := s1.set (.attestation 7) [99]

@[simp]
theorem Store.get_set (s : Store) (k : StoreKey) (v : List Nat) (q : StoreKey) :
    (s.set k v).get q = if q = k then some v else s.get q := rfl

@[simp]
theorem Store.get_del (s : Store) (k q : StoreKey) :
    (s.del k).get q = if q = k then none else s.get q := rfl

theorem Store.has_eq_isSome (s : Store) (k : StoreKey) :
    s.has k = (s.get k).isSome := rfl

theorem Store.get_eq_none_of_has_false (s : Store) (k : StoreKey)
    (h : s.has k = false) : s.get k = none := by
  have hs := Store.has_eq_isSome s k
  rw [h] at hs
  exact Option.not_isSome_iff_eq_none.mp (by simp [← hs])

theorem deleteAttestation_get_att (s : Store) (m n : Nat) :
    (deleteAttestation s m).get (.attestation n) =
      if n = m then none else s.get (.attestation n) := by
  unfold deleteAttestation
  by_cases h : s.has (.attestation m)
  · simp only [h, if_true, Store.get_del, StoreKey.attestation.injEq]
  · simp only [h, Bool.false_eq_true, if_false]
    by_cases hnm : n = m
    · subst hnm
      simp only [if_true]
      exact Store.get_eq_none_of_has_false s _ (by simpa using h)
    · simp [hnm]

theorem deleteAttestation_get_counter (s : Store) (m : Nat) (q : StoreKey)
    (hq : ∀ n, q ≠ StoreKey.attestation n) :
    (deleteAttestation s m).get q = s.get q := by
  unfold deleteAttestation
  by_cases h : s.has (.attestation m)
  · simp only [h, if_true, Store.get_del, if_neg (hq m)]
  · simp [h]

theorem deleteFrom_get_att (cnt : Nat) (s : Store) (lo n : Nat) :
    (deleteFrom s lo cnt).get (.attestation n) =
      if lo ≤ n ∧ n < lo + cnt then none else s.get (.attestation n) := by
  induction cnt generalizing s lo with
  | zero =>
      have hc : ¬ (lo ≤ n ∧ n < lo + 0) := by omega
      rw [deleteFrom, if_neg hc]
  | succ c ih =>
      rw [deleteFrom, ih, deleteAttestation_get_att]
      split_ifs with h1 h2 h3 h4 <;> first | rfl | omega

theorem deleteFrom_get_counter (cnt : Nat) (s : Store) (lo : Nat) (q : StoreKey)
    (hq : ∀ n, q ≠ StoreKey.attestation n) :
    (deleteFrom s lo cnt).get q = s.get q := by
  induction cnt generalizing s lo with
  | zero => rfl
  | succ c ih => rw [deleteFrom, ih, deleteAttestation_get_counter s lo q hq]

theorem goodLog_latest_val {s : Store} {bo : Option Nat} {lat : Nat}
    (h : GoodLog s bo lat) : getLatestAttestationNonce s = some lat := by
  rw [getLatestAttestationNonce, h.latest]
  rfl

theorem goodLog_lastPruned_val {s : Store} {bo : Option Nat} {lat : Nat}
    (h : GoodLog s bo lat) : getLastPrunedAttestationNonce s = bo := by
  rw [getLastPrunedAttestationNonce, h.pruned]
  cases bo <;> rfl

theorem storeAttestation_of_has_false {s : Store} {a : AttestationRequest}
    (hk : s.has (.attestation a.getNonce) = false) :
    storeAttestation s a =
      .ok (s.set (.attestation a.getNonce) (encodeAttestation a)) := by
  simp only [storeAttestation, hk, Bool.false_eq_true, if_false]

theorem storeAttestation_of_has_true {s : Store} {a : AttestationRequest}
    (hk : s.has (.attestation a.getNonce) = true) :
    storeAttestation s a = .error s := by
  simp only [storeAttestation, hk, if_true]

theorem setLatest_of_get_some {s : Store} {b : List Nat}
    (hb : s.get .latestAttestationNonce = some b) (nonce : Nat) :
    setLatestAttestationNonce s nonce =
      if uInt64FromBytes b + 1 ≠ nonce then .error s
      else .ok (s.set .latestAttestationNonce (uInt64Bytes nonce)) := by
  unfold setLatestAttestationNonce
  rw [show s.get .latestAttestationNonce = some b from hb]

theorem setLatest_of_get_none {s : Store}
    (hb : s.get .latestAttestationNonce = none) (nonce : Nat) :
    setLatestAttestationNonce s nonce =
      .ok (s.set .latestAttestationNonce (uInt64Bytes nonce)) := by
  unfold setLatestAttestationNonce
  rw [show s.get .latestAttestationNonce = none from hb]

theorem append_empty_eq (a : AttestationRequest) :
    setAttestationRequestT Store.empty a =
      .ok ((Store.empty.set (.attestation a.getNonce) (encodeAttestation a)).set
        .latestAttestationNonce (uInt64Bytes a.getNonce)) := rfl

theorem append_good_ok {s : Store} {bo : Option Nat} {lat : Nat}
    {a : AttestationRequest} {t : Store} (h : GoodLog s bo lat)
    (hs : setAttestationRequestT s a = .ok t) :
    a.getNonce = lat + 1 ∧
      t = (s.set (.attestation a.getNonce) (encodeAttestation a)).set
            .latestAttestationNonce (uInt64Bytes a.getNonce) := by
  unfold setAttestationRequestT at hs
  by_cases hk : s.has (.attestation a.getNonce) = true
  · rw [storeAttestation_of_has_true hk] at hs
    exact absurd hs (by simp)
  · rw [Bool.not_eq_true] at hk
    rw [storeAttestation_of_has_false hk] at hs
    simp only [] at hs
    have hget : (s.set (.attestation a.getNonce) (encodeAttestation a)).get
        .latestAttestationNonce = some (uInt64Bytes lat) := by
      rw [Store.get_set, if_neg (by simp), h.latest]
    rw [setLatest_of_get_some hget] at hs
    by_cases hn : uInt64FromBytes (uInt64Bytes lat) + 1 ≠ a.getNonce
    · rw [if_pos hn] at hs
      simp only [] at hs
      exact absurd hs (by simp)
    · rw [if_neg hn] at hs
      simp only [Except.ok.injEq] at hs
      have hlat : lat + 1 = a.getNonce := by
        simpa [uInt64Bytes, uInt64FromBytes] using not_not.mp hn
      exact ⟨hlat.symm, hs.symm⟩

theorem goodLog_append {s : Store} {bo : Option Nat} {lat : Nat}
    {a : AttestationRequest} {t : Store} (h : GoodLog s bo lat)
    (hs : setAttestationRequestT s a = .ok t) : GoodLog t bo (lat + 1) := by
  obtain ⟨hn, ht⟩ := append_good_ok h hs
  subst ht
  refine ⟨?_, ?_, ?_, ?_⟩
  · rw [Store.get_set, if_pos rfl, hn]
  · rw [Store.get_set, if_neg (by simp), Store.get_set, if_neg (by simp),
      h.pruned]
  · intro n
    rw [Store.get_set, if_neg (by simp), Store.get_set]
    by_cases hcase : (StoreKey.attestation n) = (StoreKey.attestation a.getNonce)
    · rw [if_pos hcase]
      simp only [StoreKey.attestation.injEq] at hcase
      have hle := h.hle
      constructor
      · intro _
        omega
      · intro _
        rfl
    · rw [if_neg hcase]
      simp only [StoreKey.attestation.injEq] at hcase
      rw [h.entries n]
      omega
  · have := h.hle
    omega

theorem append_good_of_next_nonce {s : Store} {bo : Option Nat} {lat : Nat}
    {a : AttestationRequest} (h : GoodLog s bo lat)
    (hn : a.getNonce = lat + 1) :
    setAttestationRequestT s a =
      .ok ((s.set (.attestation a.getNonce) (encodeAttestation a)).set
        .latestAttestationNonce (uInt64Bytes a.getNonce)) := by
  have hk : s.has (.attestation a.getNonce) = false := by
    rw [Store.has_eq_isSome]
    rw [Bool.eq_false_iff]
    intro hmem
    have := (h.entries a.getNonce).mp hmem
    omega
  unfold setAttestationRequestT
  rw [storeAttestation_of_has_false hk]
  simp only []
  have hget : (s.set (.attestation a.getNonce) (encodeAttestation a)).get
      .latestAttestationNonce = some (uInt64Bytes lat) := by
    rw [Store.get_set, if_neg (by simp), h.latest]
  rw [setLatest_of_get_some hget]
  rw [if_neg (by simp [uInt64Bytes, uInt64FromBytes, hn])]

theorem goodLog_first {a : AttestationRequest} {t : Store}
    (h1 : a.getNonce = 1) (hs : setAttestationRequestT Store.empty a = .ok t) :
    GoodLog t none 1 := by
  rw [append_empty_eq a] at hs
  simp only [Except.ok.injEq] at hs
  subst hs
  refine ⟨?_, ?_, ?_, ?_⟩
  · rw [Store.get_set, if_pos rfl, h1]
  · rw [Store.get_set, if_neg (by simp), Store.get_set, if_neg (by simp)]
    rfl
  · intro n
    rw [Store.get_set, if_neg (by simp), Store.get_set, h1]
    simp only [Option.getD_none]
    by_cases hcase : (StoreKey.attestation n) = (StoreKey.attestation 1)
    · rw [if_pos hcase]
      simp only [StoreKey.attestation.injEq] at hcase
      constructor
      · intro _
        omega
      · intro _
        rfl
    · rw [if_neg hcase]
      simp only [StoreKey.attestation.injEq] at hcase
      show (Store.empty (StoreKey.attestation n)).isSome = true ↔ _
      simp only [Store.empty, Option.isSome_none]
      constructor
      · intro hfalse
        exact absurd hfalse (by simp)
      · intro hb
        omega
  · simp only [Option.getD_none]
    omega

theorem goodLog_prune {s : Store} {bo : Option Nat} {lat k : Nat}
    (h : GoodLog s bo lat) (h1 : bo.getD 0 ≤ k) (h2 : k ≤ lat) :
    GoodLog (pruneUpTo s k) (some k) lat := by
  have hlp : getLastPrunedAttestationNonce s = bo := goodLog_lastPruned_val h
  simp only [pruneUpTo, hlp]
  have hq1 : ∀ n, StoreKey.latestAttestationNonce ≠ StoreKey.attestation n := by
    intro n hfalse
    cases hfalse
  have hq2 : ∀ n, StoreKey.lastPrunedAttestationNonce ≠ StoreKey.attestation n := by
    intro n hfalse
    cases hfalse
  refine ⟨?_, ?_, ?_, ?_⟩
  · rw [setLastPrunedAttestationNonce, Store.get_set, if_neg (by simp),
      deleteFrom_get_counter _ _ _ _ hq1, h.latest]
  · rw [setLastPrunedAttestationNonce, Store.get_set, if_pos rfl]
    rfl
  · intro n
    rw [setLastPrunedAttestationNonce, Store.get_set, if_neg (by simp),
      deleteFrom_get_att]
    simp only [Option.getD_some]
    by_cases hc : bo.getD 0 + 1 ≤ n ∧ n < bo.getD 0 + 1 + (k - bo.getD 0)
    · rw [if_pos hc]
      simp only [Option.isSome_none, Bool.false_eq_true, false_iff]
      omega
    · rw [if_neg hc, h.entries n]
      omega
  · exact h2

theorem execOk_good {s u : Store} {ops : List LogOp} (he : ExecOk s ops u) :
    ∀ {bo : Option Nat} {lat : Nat}, GoodLog s bo lat →
      ∃ bo2 lat2, GoodLog u bo2 lat2 := by
  induction he with
  | nil s => exact fun h => ⟨_, _, h⟩
  | append hstep hrest ih => exact fun h => ih (goodLog_append h hstep)
  | prune hv hrest ih =>
      intro bo lat h
      obtain ⟨lat2, hlat2, hlp, hk⟩ := hv
      rw [goodLog_latest_val h, Option.some.injEq] at hlat2
      subst hlat2
      rw [goodLog_lastPruned_val h] at hlp
      exact ih (goodLog_prune h hlp (by omega))

theorem append_s1 : setAttestationRequestT Store.empty att1 = .ok s1 := rfl

theorem append_s2 : setAttestationRequestT s1 att2 = .ok s2 := rfl

theorem goodLog_s1 : GoodLog s1 none 1 :=
  goodLog_first (show att1.getNonce = 1 from rfl) append_s1

theorem goodLog_s2 : GoodLog s2 none 2 := goodLog_append goodLog_s1 append_s2

theorem getAttestationByNonce_congr {s t : Store} {n : Nat}
    (h : s.get (.attestation n) = t.get (.attestation n)) :
    getAttestationByNonce s n = getAttestationByNonce t n := by
  unfold getAttestationByNonce
  rw [h]

theorem getAttestationByNonce_of_none {s : Store} {n : Nat}
    (h : s.get (.attestation n) = none) :
    getAttestationByNonce s n = (none, false, none) := by
  unfold getAttestationByNonce
  rw [h]

/-- C1: on a freshly initialized log both existence checks return false
(conjuncts 6-9, spec P5), but after a single `Append` and no pruning at
all, `CheckLastPrunedAttestationNonce` already returns true (conjunct 2)
even though the last-pruned-nonce key is still absent (conjunct 3): the
source reads the `LatestAttestationtNonce` key instead of the
`LastPrunedAttestationNonce` key, contradicting its own doc comment, and
the paired Get then panics on the nil counter (conjuncts 4-5). -/
theorem lastPrunedCheck_reports_true_after_append_without_prune :
    setAttestationRequestT Store.empty att1 = .ok s1
    ∧ checkLastPrunedAttestationNonce s1 = true
    ∧ s1.get .lastPrunedAttestationNonce = none
    ∧ getLastPrunedAttestationNonce s1 = none
    ∧ getLastPrunedNonceQuery s1 = none
    ∧ checkLatestAttestationNonce Store.empty = false
    ∧ checkLastPrunedAttestationNonce Store.empty = false
    ∧ getLatestNonceQuery Store.empty = some (0, false)
    ∧ getLastPrunedNonceQuery Store.empty = some (0, false) :=
  ⟨rfl, rfl, rfl, rfl, rfl, rfl, rfl, rfl, rfl⟩

/-- C2 counterexample: on the fresh store (latest-nonce counter unset,
conjunct 3) an `Append` whose request carries nonce 3 ≠ 1 does not fail
fatally — it succeeds and initializes the counter to 3 — refuting the
claim that `Append` panics whenever the nonce differs from 1 while no
attestation exists yet. -/
theorem append_nonce_three_on_fresh_store_succeeds :
    setAttestationRequestT Store.empty att3 =
      .ok ((Store.empty.set (.attestation 3) (encodeAttestation att3)).set
        .latestAttestationNonce (uInt64Bytes 3))
    ∧ att3.getNonce = 3
    ∧ checkLatestAttestationNonce Store.empty = false :=
  ⟨rfl, rfl, rfl⟩

/-- C2 (amended): in any good log state (latest counter set to `lat`,
entries contiguous) `Append` succeeds exactly when the nonce of the request is
`lat + 1`, and on success the latest nonce advances by exactly one and the
stored nonces stay contiguous; when the counter has never been set,
`Append` on the fresh store succeeds for a request with any nonce,
initializing the counter. -/
theorem append_succeeds_iff_next_nonce {s : Store} {bo : Option Nat}
    {lat : Nat} (a : AttestationRequest) (h : GoodLog s bo lat) :
    ((∃ t, setAttestationRequestT s a = .ok t) ↔ a.getNonce = lat + 1)
    ∧ (∀ t, setAttestationRequestT s a = .ok t →
        getLatestAttestationNonce t = some (lat + 1) ∧ GoodLog t bo (lat + 1))
    ∧ (∀ b : AttestationRequest, ∃ u,
        setAttestationRequestT Store.empty b = .ok u) := by
  refine ⟨⟨?_, ?_⟩, ?_, ?_⟩
  · rintro ⟨t, ht⟩
    exact (append_good_ok h ht).1
  · intro hn
    exact ⟨_, append_good_of_next_nonce h hn⟩
  · intro t ht
    exact ⟨goodLog_latest_val (goodLog_append h ht), goodLog_append h ht⟩
  · intro b
    exact ⟨_, append_empty_eq b⟩

/-- Witness for the amended C2 theorem at the concrete one-entry store. -/
theorem append_succeeds_iff_next_nonce_witness :
    GoodLog s1 none 1
    ∧ (((∃ t, setAttestationRequestT s1 att2 = .ok t) ↔ att2.getNonce = 1 + 1)
      ∧ (∀ t, setAttestationRequestT s1 att2 = .ok t →
          getLatestAttestationNonce t = some (1 + 1) ∧ GoodLog t none (1 + 1))
      ∧ (∀ b : AttestationRequest, ∃ u,
          setAttestationRequestT Store.empty b = .ok u)) :=
  ⟨goodLog_s1, append_succeeds_iff_next_nonce att2 goodLog_s1⟩

/-- C3 counterexample: appending a request with nonce 3 to the one-entry
store (latest nonce 1) panics in `SetLatestAttestationNonce`, but at the
point the panic is raised the per-nonce entry for nonce 3 has already
been written by `StoreAttestation` — the transient state differs from the
pre-state at that key, refuting "neither the per-nonce attestation entry
nor either counter has been changed at the point the fatal failure is
raised". -/
theorem append_nonce_gap_panics_after_entry_write :
    setAttestationRequestT s1 att3 =
      .error (s1.set (.attestation 3) (encodeAttestation att3))
    ∧ (s1.set (.attestation 3) (encodeAttestation att3)).get (.attestation 3) ≠
        s1.get (.attestation 3) :=
  ⟨rfl, by decide⟩

/-- C3 (amended): when `Append` fails fatally, neither counter has been
changed at the panic point and no attestation entry other than the one for
the own nonce of the request has been changed; on the overwrite panic
(its key already present) nothing at all has been changed. The entry
for the own nonce of the request may already have been written when the
nonce-mismatch panic fires, and the enclosing transaction then discards
it. -/
theorem append_abort_frame {s σ : Store} {a : AttestationRequest}
    (h : setAttestationRequestT s a = .error σ) :
    σ.get .latestAttestationNonce = s.get .latestAttestationNonce
    ∧ σ.get .lastPrunedAttestationNonce = s.get .lastPrunedAttestationNonce
    ∧ (∀ n, n ≠ a.getNonce → σ.get (.attestation n) = s.get (.attestation n))
    ∧ (s.has (.attestation a.getNonce) = true → σ = s) := by
  unfold setAttestationRequestT at h
  by_cases hk : s.has (.attestation a.getNonce) = true
  · rw [storeAttestation_of_has_true hk] at h
    simp only [Except.error.injEq] at h
    subst h
    exact ⟨rfl, rfl, fun n _ => rfl, fun _ => rfl⟩
  · rw [Bool.not_eq_true] at hk
    rw [storeAttestation_of_has_false hk] at h
    simp only [] at h
    have hget : (s.set (.attestation a.getNonce) (encodeAttestation a)).get
        .latestAttestationNonce = s.get .latestAttestationNonce := by
      rw [Store.get_set, if_neg (by simp)]
    cases hl : s.get .latestAttestationNonce with
    | none =>
        rw [setLatest_of_get_none (hget.trans hl)] at h
        simp only [] at h
        exact absurd h (by simp)
    | some b =>
        rw [setLatest_of_get_some (hget.trans hl)] at h
        by_cases hn : uInt64FromBytes b + 1 ≠ a.getNonce
        · rw [if_pos hn] at h
          simp only [Except.error.injEq] at h
          subst h
          refine ⟨?_, ?_, ?_, ?_⟩
          · rw [Store.get_set,
              if_neg (show StoreKey.latestAttestationNonce ≠
                StoreKey.attestation a.getNonce from fun hc => by cases hc)]
            exact hl
          · rw [Store.get_set,
              if_neg (show StoreKey.lastPrunedAttestationNonce ≠
                StoreKey.attestation a.getNonce from fun hc => by cases hc)]
          · intro n hn2
            rw [Store.get_set,
              if_neg (show StoreKey.attestation n ≠
                StoreKey.attestation a.getNonce from fun hc => by
                  cases hc
                  exact hn2 rfl)]
          · intro hk2
            exact absurd hk2 (by simp [hk])
        · rw [if_neg hn] at h
          simp only [] at h
          exact absurd h (by simp)

/-- Witness for the amended C3 theorem: the nonce-gap panic on the
one-entry store leaves both counters and the nonce-1 entry unchanged in
the transient state. -/
theorem append_abort_frame_witness :
    setAttestationRequestT s1 att3 =
      .error (s1.set (.attestation 3) (encodeAttestation att3))
    ∧ ((s1.set (.attestation 3) (encodeAttestation att3)).get
          .latestAttestationNonce = s1.get .latestAttestationNonce
      ∧ (s1.set (.attestation 3) (encodeAttestation att3)).get
          .lastPrunedAttestationNonce = s1.get .lastPrunedAttestationNonce
      ∧ (∀ n, n ≠ att3.getNonce →
          (s1.set (.attestation 3) (encodeAttestation att3)).get
            (.attestation n) = s1.get (.attestation n))
      ∧ (s1.has (.attestation att3.getNonce) = true →
          s1.set (.attestation 3) (encodeAttestation att3) = s1)) :=
  ⟨rfl, append_abort_frame rfl⟩

/-- C4: if the store already holds an attestation under the incoming
nonce, `Append` panics in `StoreAttestation` before performing any write:
the transient state at the panic point is exactly the pre-state, so the
originally stored value is unchanged and no existing nonce is ever
overwritten. -/
theorem append_existing_nonce_panics_state_unchanged {s : Store}
    {a : AttestationRequest} (h : s.has (.attestation a.getNonce) = true) :
    setAttestationRequestT s a = .error s := by
  unfold setAttestationRequestT
  rw [storeAttestation_of_has_true h]

/-- Witness for C4: re-appending nonce 1 to the one-entry store panics
with the store unchanged. -/
theorem append_existing_nonce_panics_state_unchanged_witness :
    s1.has (.attestation att1b.getNonce) = true
    ∧ setAttestationRequestT s1 att1b = .error s1 :=
  ⟨rfl, append_existing_nonce_panics_state_unchanged rfl⟩

/-- C5 counterexample: the sequence Append(1), Append(2),
DeleteAttestation(1) completes without any fatal result, yet afterwards
the latest counter is 2, the pruning boundary is still absent (range
claimed by the invariant: [1, 2]) and the entry for nonce 1 is missing
while nonce 2 is present — the stored nonces are not the contiguous range
[LastPrunedNonce+1, LatestNonce]. -/
theorem delete_breaks_contiguity :
    setAttestationRequestT Store.empty att1 = .ok s1
    ∧ setAttestationRequestT s1 att2 = .ok s2
    ∧ getLatestAttestationNonce (deleteAttestation s2 1) = some 2
    ∧ getLastPrunedAttestationNonce (deleteAttestation s2 1) = none
    ∧ (deleteAttestation s2 1).has (.attestation 1) = false
    ∧ (deleteAttestation s2 1).has (.attestation 2) = true
    ∧ ¬ (∀ n, ((deleteAttestation s2 1).has (.attestation n) = true ↔
        (getLastPrunedAttestationNonce (deleteAttestation s2 1)).getD 0 + 1 ≤ n
          ∧ n ≤ 2)) := by
  refine ⟨rfl, rfl, by decide, by decide, by decide, by decide, ?_⟩
  intro hall
  have h1 := (hall 1).mpr (by decide)
  exact absurd h1 (by decide)

/-- C5 (amended): after every committed sequence consisting of `Append`
operations (the first one carrying nonce 1) and well-formed pruning
compositions (each `PruneUpTo(k)` respecting the caller-side precondition
`LastPrunedNonce ≤ k < LatestNonce`), the stored nonces are exactly the
contiguous range `[LastPrunedNonce+1, LatestNonce]` (starting at 1 while
the boundary is absent). -/
theorem contiguous_range_invariant {a : AttestationRequest}
    {ops : List LogOp} {t : Store} (h1 : a.getNonce = 1)
    (he : ExecOk Store.empty (.append a :: ops) t) :
    ∃ lat, getLatestAttestationNonce t = some lat ∧
      ∀ n, (t.has (.attestation n) = true ↔
        (getLastPrunedAttestationNonce t).getD 0 + 1 ≤ n ∧ n ≤ lat) := by
  cases he with
  | append hstep hrest =>
      have hg0 := goodLog_first h1 hstep
      obtain ⟨bo2, lat2, hg⟩ := execOk_good hrest hg0
      refine ⟨lat2, goodLog_latest_val hg, ?_⟩
      intro n
      rw [goodLog_lastPruned_val hg]
      exact hg.entries n

/-- Witness for the amended C5 theorem on the concrete run Append(1),
Append(2), PruneUpTo(1). -/
theorem contiguous_range_invariant_witness :
    att1.getNonce = 1
    ∧ ExecOk Store.empty
        [.append att1, .append att2, .prune 1] (pruneUpTo s2 1)
    ∧ (∃ lat, getLatestAttestationNonce (pruneUpTo s2 1) = some lat ∧
        ∀ n, ((pruneUpTo s2 1).has (.attestation n) = true ↔
          (getLastPrunedAttestationNonce (pruneUpTo s2 1)).getD 0 + 1 ≤ n
            ∧ n ≤ lat)) := by
  have hexec : ExecOk Store.empty
      [.append att1, .append att2, .prune 1] (pruneUpTo s2 1) :=
    .append append_s1 (.append append_s2
      (.prune ⟨2, by decide, by decide, by decide⟩ (.nil _)))
  exact ⟨rfl, hexec,
    contiguous_range_invariant (show att1.getNonce = 1 from rfl) hexec⟩

/-- C6: `GetAttestationByNonce` is total (the model has no panic marker)
and case-complete: an absent key yields `(nil, false, nil)`, present but
undecodable bytes yield the distinct unmarshalling error, and decodable
bytes yield the attestation with `found = true` and a nil error. -/
theorem getByNonce_total_cases (s : Store) (nonce : Nat) :
    (s.get (.attestation nonce) = none →
      getAttestationByNonce s nonce = (none, false, none))
    ∧ (∀ bz, s.get (.attestation nonce) = some bz →
        decodeAttestation bz = none →
        getAttestationByNonce s nonce =
          (none, false, some QGBError.errUnmarshallAttestation))
    ∧ (∀ bz a, s.get (.attestation nonce) = some bz →
        decodeAttestation bz = some a →
        getAttestationByNonce s nonce = (some a, true, none)) := by
  refine ⟨?_, ?_, ?_⟩
  · intro h
    unfold getAttestationByNonce
    rw [h]
  · intro bz h hd
    unfold getAttestationByNonce
    rw [h]
    simp only []
    rw [hd]
  · intro bz a h hd
    unfold getAttestationByNonce
    rw [h]
    simp only []
    rw [hd]

/-- Witness for C6 covering all three cases: a never-appended nonce, an
entry with corrupt bytes, and a well-formed entry. -/
theorem getByNonce_total_cases_witness :
    (s1.get (.attestation 9) = none
      ∧ getAttestationByNonce s1 9 = (none, false, none))
    ∧ (sBad.get (.attestation 7) = some [99]
      ∧ decodeAttestation [99] = none
      ∧ getAttestationByNonce sBad 7 =
          (none, false, some QGBError.errUnmarshallAttestation))
    ∧ (s1.get (.attestation 1) = some (encodeAttestation att1)
      ∧ decodeAttestation (encodeAttestation att1) = some att1
      ∧ getAttestationByNonce s1 1 = (some att1, true, none)) :=
  ⟨⟨rfl, (getByNonce_total_cases s1 9).1 rfl⟩,
   ⟨rfl, rfl, (getByNonce_total_cases sBad 7).2.1 [99] rfl rfl⟩,
   ⟨rfl, rfl,
    (getByNonce_total_cases s1 1).2.2 (encodeAttestation att1) att1 rfl rfl⟩⟩

/-- C7: in a good log state, after the pruning composition with target
`k < LatestNonce`, `GetAttestationByNonce` reports not-found for every
nonce up to `k`, is unchanged above `k`, and the last-pruned query
returns `(k, true)`. -/
theorem prune_boundary {s : Store} {bo : Option Nat} {lat : Nat} (k : Nat)
    (h : GoodLog s bo lat) (hk : k < lat) :
    (∀ j, j ≤ k →
      getAttestationByNonce (pruneUpTo s k) j = (none, false, none))
    ∧ (∀ j, k < j →
        getAttestationByNonce (pruneUpTo s k) j = getAttestationByNonce s j)
    ∧ getLastPrunedNonceQuery (pruneUpTo s k) = some (k, true) := by
  have hlp : getLastPrunedAttestationNonce s = bo := goodLog_lastPruned_val h
  have hgetatt : ∀ j, (pruneUpTo s k).get (.attestation j) =
      if bo.getD 0 + 1 ≤ j ∧ j < bo.getD 0 + 1 + (k - bo.getD 0) then none
      else s.get (.attestation j) := by
    intro j
    simp only [pruneUpTo, hlp, setLastPrunedAttestationNonce]
    rw [Store.get_set, if_neg (fun hc => by cases hc), deleteFrom_get_att]
  refine ⟨?_, ?_, ?_⟩
  · intro j hj
    apply getAttestationByNonce_of_none
    rw [hgetatt j]
    by_cases hc : bo.getD 0 + 1 ≤ j ∧ j < bo.getD 0 + 1 + (k - bo.getD 0)
    · rw [if_pos hc]
    · rw [if_neg hc]
      rw [← Option.not_isSome_iff_eq_none]
      intro hsome
      have hb := (h.entries j).mp (by simpa using hsome)
      omega
  · intro j hj
    apply getAttestationByNonce_congr
    rw [hgetatt j, if_neg (by omega)]
  · have hlat : (pruneUpTo s k).get .latestAttestationNonce =
        some (uInt64Bytes lat) := by
      simp only [pruneUpTo, hlp, setLastPrunedAttestationNonce]
      rw [Store.get_set, if_neg (fun hc => by cases hc),
        deleteFrom_get_counter _ _ _ _ (fun n hc => by cases hc), h.latest]
    have hpr : (pruneUpTo s k).get .lastPrunedAttestationNonce =
        some (uInt64Bytes k) := by
      simp only [pruneUpTo, hlp, setLastPrunedAttestationNonce]
      rw [Store.get_set, if_pos rfl]
    unfold getLastPrunedNonceQuery checkLastPrunedAttestationNonce
    rw [Store.has_eq_isSome, hlat]
    simp only [Option.isSome_some, if_true]
    rw [getLastPrunedAttestationNonce, hpr]
    rfl

/-- Witness for C7 on the concrete two-entry store pruned up to 1. -/
theorem prune_boundary_witness :
    GoodLog s2 none 2 ∧ (1 : Nat) < 2
    ∧ ((∀ j, j ≤ 1 →
          getAttestationByNonce (pruneUpTo s2 1) j = (none, false, none))
      ∧ (∀ j, 1 < j →
          getAttestationByNonce (pruneUpTo s2 1) j = getAttestationByNonce s2 j)
      ∧ getLastPrunedNonceQuery (pruneUpTo s2 1) = some (1, true)) :=
  ⟨goodLog_s2, by omega, prune_boundary 1 goodLog_s2 (by omega)⟩

/-- C8: `DeleteAttestation(n)` removes exactly the entry for `n` when
present, is the identity when absent (and never fails — it is total), and
leaves both counters and every other attestation entry unchanged. -/
theorem delete_frame (s : Store) (n : Nat) :
    (deleteAttestation s n).get (.attestation n) = none
    ∧ (s.get (.attestation n) = none → deleteAttestation s n = s)
    ∧ (∀ m, m ≠ n →
        (deleteAttestation s n).get (.attestation m) =
          s.get (.attestation m))
    ∧ (deleteAttestation s n).get .latestAttestationNonce =
        s.get .latestAttestationNonce
    ∧ (deleteAttestation s n).get .lastPrunedAttestationNonce =
        s.get .lastPrunedAttestationNonce := by
  refine ⟨?_, ?_, ?_, ?_, ?_⟩
  · rw [deleteAttestation_get_att, if_pos rfl]
  · intro h
    have hh : s.has (.attestation n) = false := by
      rw [Store.has_eq_isSome, h]
      rfl
    simp only [deleteAttestation, hh, Bool.false_eq_true, if_false]
  · intro m hm
    rw [deleteAttestation_get_att, if_neg hm]
  · exact deleteAttestation_get_counter s n _ (fun m hc => by cases hc)
  · exact deleteAttestation_get_counter s n _ (fun m hc => by cases hc)

/-- Witness for C8: deleting an absent nonce is the identity; deleting
nonce 1 from the two-entry store removes exactly that entry. -/
theorem delete_frame_witness :
    (s2.get (.attestation 9) = none ∧ deleteAttestation s2 9 = s2)
    ∧ ((2 : Nat) ≠ 1
      ∧ (deleteAttestation s2 1).get (.attestation 2) =
          s2.get (.attestation 2))
    ∧ (deleteAttestation s2 1).get (.attestation 1) = none :=
  ⟨⟨rfl, (delete_frame s2 9).2.1 rfl⟩,
   ⟨by decide, (delete_frame s2 1).2.2.1 2 (by decide)⟩,
   (delete_frame s2 1).1⟩

/-- C9: decoding the encoding of any supported attestation variant yields
the same value (tag preserved), and consequently a successful `Append` of
`x` makes `GetAttestationByNonce` at the nonce of `x` return `x` with
`found = true` and a nil error. -/
theorem encode_decode_roundtrip :
    (∀ x : AttestationRequest,
      decodeAttestation (encodeAttestation x) = some x)
    ∧ (∀ (s t : Store) (x : AttestationRequest),
        setAttestationRequestT s x = .ok t →
        getAttestationByNonce t x.getNonce = (some x, true, none)) := by
  have hrt : ∀ x : AttestationRequest,
      decodeAttestation (encodeAttestation x) = some x := by
    intro x
    cases x with
    | valsetUpdate n powers h => simp [encodeAttestation, decodeAttestation]
    | dataCommitment n root b e => simp [encodeAttestation, decodeAttestation]
  refine ⟨hrt, ?_⟩
  intro s t x hs
  unfold setAttestationRequestT at hs
  by_cases hk : s.has (.attestation x.getNonce) = true
  · rw [storeAttestation_of_has_true hk] at hs
    exact absurd hs (by simp)
  · rw [Bool.not_eq_true] at hk
    rw [storeAttestation_of_has_false hk] at hs
    simp only [] at hs
    cases hl : (s.set (.attestation x.getNonce) (encodeAttestation x)).get
        .latestAttestationNonce with
    | none =>
        rw [setLatest_of_get_none hl] at hs
        simp only [Except.ok.injEq] at hs
        subst hs
        unfold getAttestationByNonce
        rw [Store.get_set, if_neg (fun hc => by cases hc),
          Store.get_set, if_pos rfl]
        simp only []
        rw [hrt x]
    | some b =>
        rw [setLatest_of_get_some hl] at hs
        by_cases hn : uInt64FromBytes b + 1 ≠ x.getNonce
        · rw [if_pos hn] at hs
          simp only [] at hs
          exact absurd hs (by simp)
        · rw [if_neg hn] at hs
          simp only [Except.ok.injEq] at hs
          subst hs
          unfold getAttestationByNonce
          rw [Store.get_set, if_neg (fun hc => by cases hc),
            Store.get_set, if_pos rfl]
          simp only []
          rw [hrt x]

/-- Witness for the conditional part of C9 on the first concrete append. -/
theorem encode_decode_roundtrip_witness :
    setAttestationRequestT Store.empty att1 = .ok s1
    ∧ getAttestationByNonce s1 att1.getNonce = (some att1, true, none) :=
  ⟨append_s1, encode_decode_roundtrip.2 Store.empty s1 att1 append_s1⟩

/-- C10: every non-panicking execution of `SetAttestationRequest` returns
a nil error: the error component of the committed result is always `none`. -/
theorem append_returns_nil_error (s : Store) (a : AttestationRequest)
    (t : Store) (e : Option QGBError)
    (h : setAttestationRequest s a = .ok (t, e)) : e = none := by
  unfold setAttestationRequest at h
  cases hs : setAttestationRequestT s a with
  | error σ =>
      rw [hs] at h
      exact absurd h (by simp)
  | ok u =>
      rw [hs] at h
      simp only [Except.ok.injEq, Prod.mk.injEq] at h
      exact h.2.symm

/-- Witness for C10 on the first concrete append. -/
theorem append_returns_nil_error_witness :
    setAttestationRequest Store.empty att1 = .ok (s1, none)
    ∧ (none : Option QGBError) = none :=
  ⟨rfl, append_returns_nil_error Store.empty att1 s1 none rfl⟩

end QGB
